import Mathlib

/-!
Verification development for DirPatchkit, a directory-tree binary patching
tool.  The sources are `patch_create.py` (patch builder), `patch_apply.py`
(patch applier) and `xdeltawrapper.py` (external delta-tool wrapper).

The embedding below models:
  * archive entry names and filesystem paths as lists of characters,
    with the Python string operations (`endswith`, `replace`,
    `os.path.join`, `os.path.relpath`) translated faithfully;
  * the filesystem as an association list from normalized relative paths
    to byte contents (bytes are lists of naturals);
  * the opaque byte-delta primitive `bsdiff4` as a `Codec` record of two
    functions (`diff`, `patch`); theorems that need the round-trip law
    `patch a (diff a b) = b` take it as an explicit hypothesis, matching
    the specification of the excluded collaborator;
  * the external delta tool (`xdelta`) as an opaque binary function of the
    two files' contents, since the tool itself is an excluded collaborator.
-/

namespace DirPatchkit

/-- Byte strings: file contents, delta payloads, archive entry bytes. -/
abbrev Bytes := List Nat

/-- Path / entry-name strings, as lists of characters. -/
abbrev PathStr := List Char

/-- The `.patch` entry-name suffix used by the applier's dispatch. -/
def patchSuffix : PathStr := ".patch".toList

/-- The `.vcdiff` suffix the builder uses for xdelta (external tool) entries
(`xdelta_patch_large_file` in `patch_create.py`). -/
def vcdiffSuffix : PathStr := ".vcdiff".toList

/-- Python `s.endswith(suffix)`. -/
def pyEndswith (s suffix : PathStr) : Bool := suffix.isSuffixOf s

/-- Fuel-driven worker for `pyReplace`; the fuel is the length of the
scanned string, which suffices because every step consumes at least one
character (for a nonempty pattern).  Matches are leftmost and
non-overlapping, exactly as in Python `str.replace`. -/
def replaceFuel (old new : PathStr) : Nat → PathStr → PathStr
  | 0, s => s
  | _ + 1, [] => []
  | fuel + 1, c :: rest =>
    if old ≠ [] ∧ old.isPrefixOf (c :: rest) then
      new ++ replaceFuel old new fuel ((c :: rest).drop old.length)
    else
      c :: replaceFuel old new fuel rest

/-- Python `s.replace(old, new)` for a nonempty pattern `old`: every
occurrence of `old` in `s` is replaced, not only a trailing one.  The
applier and validator call `patch_file.replace('.patch', '')`. -/
def pyReplace (old new s : PathStr) : PathStr := replaceFuel old new s.length s

/-- Python `os.path.join(dir, name)` for a nonempty relative `dir`. -/
def pyJoin (dir name : PathStr) : PathStr := dir ++ '/' :: name

/-- Strip leading `./` components from a relative path.  This models both
the path normalization the OS performs when resolving a relative path
against the current working directory, and `os.path.relpath(p)` for a
path `p` that is already relative to the cwd and has no internal dot
components (the only shapes the program produces). -/
def normPath : PathStr → PathStr
  | '.' :: '/' :: rest => normPath rest
  | p => p

/-- Python `os.path.relpath(p)` (relative to the cwd), for the cwd-relative
dot-free paths this program builds; see `normPath`. -/
def relpathFromCwd (p : PathStr) : PathStr := normPath p

/-- Python `os.path.relpath(p, root)` for a path `p` lying under `root`,
as produced by the builder (`os.path.relpath(diff_file, base)`). -/
def pyRelpathFrom (root p : PathStr) : PathStr :=
  if (root ++ ['/']).isPrefixOf p then p.drop (root.length + 1) else p

/-- Python `s.lower()` restricted to ASCII, as `click.Choice` with
`case_sensitive=False` compares choices case-insensitively. -/
def pyLower (s : PathStr) : PathStr := s.map Char.toLower

/-- Update an association list in place, appending when the key is new
(Python `dict` insertion semantics, also used for the file store). -/
def assocSet : List (PathStr × Bytes) → PathStr → Bytes → List (PathStr × Bytes)
  | [], k, v => [(k, v)]
  | (k0, v0) :: rest, k, v =>
    if k0 = k then (k, v) :: rest else (k0, v0) :: assocSet rest k v

/-- The filesystem model: a finite map from normalized cwd-relative file
paths to contents.  Directories are implicit; only files are stored. -/
abbrev FS := List (PathStr × Bytes)

/-- Read a file (Python `open(p,'rb').read()` succeeding iff the result is
`some`); the path is normalized as the OS would. -/
def fsRead (fs : FS) (p : PathStr) : Option Bytes := List.lookup (normPath p) fs

/-- Write (create or overwrite) a file. -/
def fsWrite (fs : FS) (p : PathStr) (v : Bytes) : FS := assocSet fs (normPath p) v

/-- Python `os.path.exists` on the file store. -/
def fsExists (fs : FS) (p : PathStr) : Bool := (fsRead fs p).isSome

/-- The opaque in-memory byte-delta primitive (`bsdiff4`), an excluded
collaborator: `diff old new` encodes, `patch old delta` decodes. -/
structure Codec where
  diff : Bytes → Bytes → Bytes
  patch : Bytes → Bytes → Bytes

/-- A degenerate codec satisfying the round-trip law `patch a (diff a b) = b`,
used to instantiate witnesses. -/
def idCodec : Codec where
  diff := fun _ b => b
  patch := fun _ d => d

/-! ## Patch applier (`patch_apply.py`) -/

/-- `validate_patch(patch_path, target_dir)`: for every archive entry name
ending in `.patch`, require that the file obtained by deleting every
`'.patch'` occurrence from the entry name and joining it to the target
directory exists; entries not ending in `.patch` are not checked. -/
def validate_patch (entryNames : List PathStr) (target_dir : PathStr) (fs : FS) : Bool :=
  entryNames.all fun pf =>
    if pyEndswith pf patchSuffix then
      fsExists fs (pyJoin target_dir (pyReplace patchSuffix [] pf))
    else true

/-- Errors the applier can raise (uncaught Python exceptions). -/
inductive ApplyErr where
  | fileNotFound : ApplyErr
  deriving DecidableEq, Repr

/-- State threaded through `apply_patch_with_backup`'s entry loop: the
filesystem, the accumulated `reverse_patches` dict (insertion order), and
the running `patch_size`. -/
structure ApplyState where
  fs : FS
  rev : List (PathStr × Bytes)
  size : Nat
  deriving DecidableEq, Repr

/-- One iteration of the entry loop of `apply_patch_with_backup`: entries
whose name ends in `.patch` are treated as binary deltas against the file
named by deleting every `'.patch'` occurrence (read, decode, optionally
record the reverse delta `diff new old` under the cwd-relative name plus
`.patch`, overwrite in place); every other entry is extracted verbatim to
`target_dir/<entry name>`. -/
def applyEntry (cd : Codec) (target_dir : PathStr) (create_backup : Bool)
    (st : ApplyState) (e : PathStr × Bytes) : Except ApplyErr ApplyState :=
  if pyEndswith e.1 patchSuffix then
    let original_file_path := pyJoin target_dir (pyReplace patchSuffix [] e.1)
    match fsRead st.fs original_file_path with
    | none => .error .fileNotFound
    | some original_data =>
      let new_data := cd.patch original_data e.2
      let rev' :=
        if create_backup then
          assocSet st.rev (relpathFromCwd original_file_path ++ patchSuffix)
            (cd.diff new_data original_data)
        else st.rev
      .ok ⟨fsWrite st.fs original_file_path new_data, rev', st.size + e.2.length⟩
  else
    .ok ⟨fsWrite st.fs (pyJoin target_dir e.1) e.2, st.rev, st.size⟩

/-- `apply_patch_with_backup(patch_path, target_dir, create_backup)`: fold
the entry loop over the archive's entries (name, bytes).  The returned
`rev` component is the content of the `_revertpatch.zip` archive, which is
written to the cwd iff `create_backup` is set. -/
def apply_patch_with_backup (cd : Codec) (entries : List (PathStr × Bytes))
    (target_dir : PathStr) (create_backup : Bool) (fs : FS) :
    Except ApplyErr ApplyState :=
  entries.foldlM (applyEntry cd target_dir create_backup) ⟨fs, [], 0⟩

/-- The applier CLI `main` (non-GUI path): each patch archive found is
validated against the target directory first; if any validation fails the
command returns without applying anything, otherwise the archives are
applied in order.  The second component collects the reverse-patch
archives produced (one per applied patch; written out iff backup). -/
def apply_main (cd : Codec) (patches : List (List (PathStr × Bytes)))
    (target : PathStr) (backup : Bool) (fs : FS) :
    Except ApplyErr (FS × List (List (PathStr × Bytes))) :=
  if patches.all fun p => validate_patch (p.map Prod.fst) target fs then
    patches.foldlM
      (fun acc p => do
        let st ← apply_patch_with_backup cd p target backup acc.1
        pure (st.fs, acc.2 ++ [st.rev]))
      (fs, [])
  else
    .ok (fs, [])

/-! ## Patch builder (`patch_create.py`) -/

/-- The global flags set by the builder CLI: large-file strategy name,
`--split-size` (MB) and `--large-file-size` (MB). -/
structure BuildCfg where
  strategy : PathStr
  splitSizeMB : Nat
  largeFileSizeMB : Nat

/-- Errors during patch creation: `IOError` for a missing/unreadable file,
`ValueError` for the unknown-strategy branch of `handle_large_file`,
the `click.Choice` rejection of an invalid `--large-file-strategy`. -/
inductive BuildErr where
  | ioError : BuildErr
  | valueError : BuildErr
  | configError : BuildErr
  deriving DecidableEq, Repr

/-- `get_chunk_size()`: the split size in bytes. -/
def getChunkSize (cfg : BuildCfg) : Nat := cfg.splitSizeMB * 1024 * 1024

/-- Fuel-driven worker for `split_file_into_chunks`; the fuel is the length
of the content, sufficient since every chunk consumes at least one byte. -/
def chunksFuel (csize : Nat) : Nat → Bytes → List Bytes
  | 0, _ => []
  | _ + 1, [] => []
  | fuel + 1, b :: rest =>
    if csize = 0 then []
    else (b :: rest).take csize :: chunksFuel csize fuel ((b :: rest).drop csize)

/-- `split_file_into_chunks(file_path)`: read the file in chunks of
`get_chunk_size()` bytes until exhausted.  With a zero chunk size,
`f.read(0)` returns an empty buffer, so the generator yields nothing. -/
def split_file_into_chunks (csize : Nat) (content : Bytes) : List Bytes :=
  chunksFuel csize content.length content

/-- The archive entry name `f"{rel_path}.part_{idx}.patch"` of chunk `idx`. -/
def chunkEntryName (rel : PathStr) (idx : Nat) : PathStr :=
  rel ++ ".part_".toList ++ (toString idx).toList ++ patchSuffix

/-- A file-content oracle standing for the builder's reads of the two input
trees on disk (`none` = the path is not a readable file). -/
abbrev ReadOracle := PathStr → Option Bytes

/-- Per-file result of the builder: the archive entries written for the
file, and the exception (if any) the file's worker raised.  Entries
written before the exception are kept, as `zipf.writestr` calls that
already happened are not undone. -/
abbrev FileResult := List (PathStr × Bytes) × Option BuildErr

/-- `split_and_patch_large_file`: split base and target into chunks, pair
the chunk lists positionally (`zip`), and emit one
`<rel>.part_<idx>.patch` delta entry per pair; unmatched trailing chunks
of the longer file produce nothing. -/
def split_and_patch_large_file (cfg : BuildCfg) (cd : Codec) (ro : ReadOracle)
    (diff_file target_file_path rel_path : PathStr) : FileResult :=
  match ro diff_file, ro target_file_path with
  | some base_content, some target_content =>
    let base_chunks := split_file_into_chunks (getChunkSize cfg) base_content
    let target_chunks := split_file_into_chunks (getChunkSize cfg) target_content
    (((base_chunks.zip target_chunks).enum.map fun p =>
        (chunkEntryName rel_path p.1, cd.diff p.2.1 p.2.2)), none)
  | _, _ => ([], some .ioError)

/-- `xdelta_patch_large_file`: run the external tool's encoder on the two
whole files and write one `<rel>.vcdiff` entry.  The subprocess itself is
an excluded collaborator; `xenc` is its encode function on the files'
contents (`xdeltawrapper.create_patch`). -/
def xdelta_patch_large_file (cd : Codec) (xenc : Bytes → Bytes → Bytes)
    (ro : ReadOracle) (diff_file target_file_path rel_path : PathStr) : FileResult :=
  match ro diff_file, ro target_file_path with
  | some base_content, some target_content =>
    let _ := cd
    ([(rel_path ++ vcdiffSuffix, xenc base_content target_content)], none)
  | _, _ => ([], some .ioError)

/-- `copy_large_file_to_zip`: embed the target file verbatim under its bare
relative path. -/
def copy_large_file_to_zip (ro : ReadOracle)
    (target_file_path rel_path : PathStr) : FileResult :=
  match ro target_file_path with
  | some c => ([(rel_path, c)], none)
  | none => ([], some .ioError)

/-- `handle_large_file`: dispatch on the strategy string; `split` also
requires a positive split size, and any other combination falls through
to `raise ValueError(...)`. -/
def handle_large_file (cfg : BuildCfg) (cd : Codec) (xenc : Bytes → Bytes → Bytes)
    (ro : ReadOracle) (diff_file target_file_path rel_path : PathStr) : FileResult :=
  if cfg.strategy = "copy".toList then
    copy_large_file_to_zip ro target_file_path rel_path
  else if cfg.strategy = "skip".toList then
    ([], none)
  else if cfg.strategy = "split".toList ∧ 0 < cfg.splitSizeMB then
    split_and_patch_large_file cfg cd ro diff_file target_file_path rel_path
  else if cfg.strategy = "xdelta".toList then
    xdelta_patch_large_file cd xenc ro diff_file target_file_path rel_path
  else
    ([], some .valueError)

/-- `create_patch_for_file`: files whose size exceeds the large-file
threshold go through `handle_large_file`; all others get one whole-file
`bsdiff4` delta entry named `<rel>.patch`. -/
def create_patch_for_file (cfg : BuildCfg) (cd : Codec) (xenc : Bytes → Bytes → Bytes)
    (ro : ReadOracle) (diff_file target_file_path rel_path : PathStr) : FileResult :=
  match ro diff_file with
  | none => ([], some .ioError)
  | some base_content =>
    if base_content.length > cfg.largeFileSizeMB * 1024 * 1024 then
      handle_large_file cfg cd xenc ro diff_file target_file_path rel_path
    else
      match ro target_file_path with
      | none => ([], some .ioError)
      | some target_content =>
        ([(rel_path ++ patchSuffix, cd.diff base_content target_content)], none)

/-! ### Tree differ (`find_differences`) -/

/-- A directory-tree node: a regular file with contents, or a directory
with named children (names unique, as produced by `os.scandir`). -/
inductive FsNode where
  | file : Bytes → FsNode
  | dir : List (PathStr × FsNode) → FsNode

/-- Look a name up among a directory's entries. -/
def lookupNode (entries : List (PathStr × FsNode)) (n : PathStr) : Option FsNode :=
  (entries.find? fun e => e.1 = n).map (·.2)

/-- `find_differences(base, target)` on the scanned entries of the two
directories (paths `bp`, `tp`): names only in the target are appended to
`new` as `join(target, name)` without recursion (whether the entry is a
file or a directory); names in both trees that are files on both sides
and differ in content are appended to `changed` as `join(base, name)`;
names that are directories on both sides are recursed into, the
sub-results appended.  Mixed file/directory name clashes contribute
nothing.  The concurrent comparison loop only affects ordering within a
level, which the sources do not guarantee; the model uses scan order. -/
def find_differences (bp tp : PathStr)
    (bes tes : List (PathStr × FsNode)) : List PathStr × List PathStr :=
  let lvlNew :=
    (tes.filter fun e => (lookupNode bes e.1).isNone).map fun e => pyJoin tp e.1
  let lvlChanged := bes.filterMap fun e =>
    match e.2, lookupNode tes e.1 with
    | FsNode.file bc, some (FsNode.file tc) =>
      if bc ≠ tc then some (pyJoin bp e.1) else none
    | _, _ => none
  let subs := bes.attach.map fun x =>
    match hbn : x.1.2, lookupNode tes x.1.1 with
    | FsNode.dir bsub, some (FsNode.dir tsub) =>
      find_differences (pyJoin bp x.1.1) (pyJoin tp x.1.1) bsub tsub
    | _, _ => ([], [])
  (lvlChanged ++ (subs.map (·.1)).flatten, lvlNew ++ (subs.map (·.2)).flatten)
termination_by sizeOf bes
decreasing_by
  have hx : x.1 ∈ bes := x.2
  have h1 : sizeOf x.1 < sizeOf bes := List.sizeOf_lt_of_mem hx
  have h3 : sizeOf x.1.2 ≤ sizeOf x.1 := by
    obtain ⟨a, b⟩ := x.1
    simp only [Prod.mk.sizeOf_spec]
    omega
  have h4 : sizeOf bsub < sizeOf x.1.2 := by
    rw [hbn]
    simp only [FsNode.dir.sizeOf_spec]
    omega
  omega

/-- A `new` path entry written by `create_binary_patch`'s second loop:
`zipf.write(new_file, rel_path)` embeds a regular file's bytes under its
bare relative path; for a directory (`ro` returns `none`) the zip gains
only an empty directory marker entry `rel_path + "/"`, the files beneath
it are not visited. -/
def newFileEntry (ro : ReadOracle) (tp : PathStr) (new_file : PathStr) : PathStr × Bytes :=
  let rel := pyRelpathFrom tp new_file
  match ro new_file with
  | some c => (rel, c)
  | none => (rel ++ ['/'], [])

/-- The archive-writing phase of `create_binary_patch`, given the computed
`differences` lists: every changed path is handed to
`create_patch_for_file` (concurrently in the source; order within the
entry list is not guaranteed there and is list order here), exceptions
from the per-file futures are caught, echoed to stderr (collected in the
second component) and the loop continues; afterwards every new path is
embedded via `zipf.write`. -/
def create_binary_patch_entries (cfg : BuildCfg) (cd : Codec)
    (xenc : Bytes → Bytes → Bytes) (ro : ReadOracle) (bp tp : PathStr)
    (changed newPaths : List PathStr) : List (PathStr × Bytes) × List BuildErr :=
  let afterChanged := changed.foldl
    (fun acc diff_file =>
      let rel_path := pyRelpathFrom bp diff_file
      let r := create_patch_for_file cfg cd xenc ro diff_file (pyJoin tp rel_path) rel_path
      (acc.1 ++ r.1, acc.2 ++ r.2.toList))
    ([], [])
  (afterChanged.1 ++ newPaths.map (newFileEntry ro tp), afterChanged.2)

/-- `create_binary_patch(base, target, patch_file)`: diff the trees, then
write the archive. -/
def create_binary_patch (cfg : BuildCfg) (cd : Codec)
    (xenc : Bytes → Bytes → Bytes) (ro : ReadOracle) (bp tp : PathStr)
    (bes tes : List (PathStr × FsNode)) : List (PathStr × Bytes) × List BuildErr :=
  let differences := find_differences bp tp bes tes
  create_binary_patch_entries cfg cd xenc ro bp tp differences.1 differences.2

/-- The closed set of large-file strategy names accepted by the builder
CLI's `click.Choice(['copy', 'split', 'skip', 'xdelta'])`. -/
def strategyChoices : List PathStr :=
  ["copy".toList, "split".toList, "skip".toList, "xdelta".toList]

/-- The builder CLI `main` in `binary` mode: `click.Choice` (declared with
`case_sensitive=False`) rejects any `--large-file-strategy` value outside
its choice list while parsing the command line, i.e. before the command
body runs; on a match the declared (lowercase) choice is stored in the
global flag and `create_binary_patch` runs. -/
def builder_main (cd : Codec) (xenc : Bytes → Bytes → Bytes) (ro : ReadOracle)
    (strategyArg : PathStr) (splitMB largeMB : Nat) (bp tp : PathStr)
    (bes tes : List (PathStr × FsNode)) :
    Except BuildErr (List (PathStr × Bytes) × List BuildErr) :=
  if strategyChoices.contains (pyLower strategyArg) then
    .ok (create_binary_patch ⟨pyLower strategyArg, splitMB, largeMB⟩ cd xenc ro bp tp bes tes)
  else
    .error .configError

/-! ### Amended tree-diff semantics (for claim C5)

`newSpec` and `changedSpec` restate, independently of the incidental
structure of `find_differences`, what the differ computes: `new` holds
the joined names only in the target at every commonly-present directory
level, with no recursion into a new entry (directory or file); `changed`
holds only names that are files with different contents on both sides. -/

/-- Modelled from the spec (amended claim C5): the `new` paths. -/
def newSpec (bp tp : PathStr) (bes tes : List (PathStr × FsNode)) : List PathStr :=
  (tes.filter fun e => (lookupNode bes e.1).isNone).map (fun e => pyJoin tp e.1)
    ++ (bes.attach.map fun x =>
        match hbn : x.1.2, lookupNode tes x.1.1 with
        | FsNode.dir bsub, some (FsNode.dir tsub) =>
          newSpec (pyJoin bp x.1.1) (pyJoin tp x.1.1) bsub tsub
        | _, _ => []).flatten
termination_by sizeOf bes
decreasing_by
  have hx : x.1 ∈ bes := x.2
  have h1 : sizeOf x.1 < sizeOf bes := List.sizeOf_lt_of_mem hx
  have h3 : sizeOf x.1.2 ≤ sizeOf x.1 := by
    obtain ⟨a, b⟩ := x.1
    simp only [Prod.mk.sizeOf_spec]
    omega
  have h4 : sizeOf bsub < sizeOf x.1.2 := by
    rw [hbn]
    simp only [FsNode.dir.sizeOf_spec]
    omega
  omega

/-- Modelled from the spec (amended claim C5): the `changed` paths, which
only ever name entries that are files on both sides. -/
def changedSpec (bp tp : PathStr) (bes tes : List (PathStr × FsNode)) : List PathStr :=
  (bes.filterMap fun e =>
    match e.2, lookupNode tes e.1 with
    | FsNode.file bc, some (FsNode.file tc) =>
      if bc ≠ tc then some (pyJoin bp e.1) else none
    | _, _ => none)
    ++ (bes.attach.map fun x =>
        match hbn : x.1.2, lookupNode tes x.1.1 with
        | FsNode.dir bsub, some (FsNode.dir tsub) =>
          changedSpec (pyJoin bp x.1.1) (pyJoin tp x.1.1) bsub tsub
        | _, _ => []).flatten
termination_by sizeOf bes
decreasing_by
  have hx : x.1 ∈ bes := x.2
  have h1 : sizeOf x.1 < sizeOf bes := List.sizeOf_lt_of_mem hx
  have h3 : sizeOf x.1.2 ≤ sizeOf x.1 := by
    obtain ⟨a, b⟩ := x.1
    simp only [Prod.mk.sizeOf_spec]
    omega
  have h4 : sizeOf bsub < sizeOf x.1.2 := by
    rw [hbn]
    simp only [FsNode.dir.sizeOf_spec]
    omega
  omega

/-! ## Claims -/

/-- C1: the claim says `apply` decodes an external-delta entry with the
external-tool decoder against the referenced base file and overwrites
that base file in place.  The code does not: the applier dispatches only
on the `.patch` name suffix and never calls `xdeltawrapper.apply_patch`,
so an external-delta entry (named `<rel>.vcdiff` by the builder) falls
into the verbatim branch.  Evaluating the applier on an archive holding
the external-delta entry `big.vcdiff` over a target tree containing the
base file `t/big`: the base file keeps its old bytes `[1, 2, 3]` and a
new file `t/big.vcdiff` is created holding the raw delta bytes `[9, 9]`. -/
theorem c1_external_delta_extracted_verbatim :
    apply_patch_with_backup idCodec [("big.vcdiff".toList, [9, 9])]
        "t".toList false [("t/big".toList, [1, 2, 3])] =
      .ok ⟨[("t/big".toList, [1, 2, 3]), ("t/big.vcdiff".toList, [9, 9])], [], 0⟩ ∧
    fsRead [("t/big".toList, [1, 2, 3]), ("t/big.vcdiff".toList, [9, 9])]
        "t/big".toList = some [1, 2, 3] := by
  constructor
  · rfl
  · rfl

/-- C2 counterexample: the claim states `validate` returns false iff some
entry whose kind requires a base file (full, chunked or external delta)
references an absent path.  Both directions fail on the code.  First, an
external-delta entry: `create_patch_for_file` with the (default) `xdelta`
strategy names it `big.vcdiff`, which does not end in `.patch`, so
`validate_patch` never checks it — with base `t/big` absent from an empty
target tree the validator still answers true.  Second, a chunked-delta
entry `f.part_0.patch` is checked against the path `t/f.part_0` (the
name with `.patch` deleted), not against its base `t/f` — with `t/f`
present the validator answers false anyway. -/
theorem c2_counterexample :
    (create_patch_for_file ⟨"xdelta".toList, 16, 0⟩ idCodec (fun a b => a ++ b)
        (fun p => if p = "B/big".toList then some [1]
          else if p = "T/big".toList then some [2] else none)
        "B/big".toList "T/big".toList "big".toList).1.map Prod.fst =
      ["big.vcdiff".toList] ∧
    validate_patch ["big.vcdiff".toList] "t".toList [] = true ∧
    chunkEntryName "f".toList 0 = "f.part_0.patch".toList ∧
    validate_patch ["f.part_0.patch".toList] "t".toList [("t/f".toList, [1])] = false := by
  refine ⟨rfl, rfl, by decide, rfl⟩

/-- C2 amended: `validate` returns false iff some entry whose name ends in
`.patch` (full-file and chunked delta entries; external-delta `.vcdiff`
entries and verbatim files are never checked) maps to an absent path once
every `'.patch'` occurrence is deleted from the name and the result is
joined to the target directory — for a chunked entry that checked path
retains its `.part_<i>` part and is not the entry's base file. -/
theorem c2_validate_false_iff (names : List PathStr) (target : PathStr) (fs : FS) :
    validate_patch names target fs = false ↔
      ∃ n ∈ names, pyEndswith n patchSuffix = true ∧
        fsExists fs (pyJoin target (pyReplace patchSuffix [] n)) = false := by
  unfold validate_patch
  rw [List.all_eq_false]
  apply exists_congr
  intro n
  apply and_congr_right
  intro _
  by_cases hc : pyEndswith n patchSuffix = true
  · simp [hc]
  · rw [Bool.not_eq_true] at hc
    simp [hc]

/-- C2 amended, instantiated: a full-delta entry `f.patch` over an empty
target tree makes validation fail. -/
theorem c2_validate_false_iff_witness :
    validate_patch ["f.patch".toList] "t".toList [] = false := by
  rw [c2_validate_false_iff]
  exact ⟨"f.patch".toList, by decide, by decide, by decide⟩

/-- C3: the applier CLI validates every found patch archive against the
target before applying anything; if any archive fails validation the
command returns with the filesystem untouched and no reverse-patch
archive produced. -/
theorem c3_validate_before_mutation (cd : Codec)
    (patches : List (List (PathStr × Bytes))) (target : PathStr) (backup : Bool)
    (fs : FS)
    (h : ∃ p ∈ patches, validate_patch (p.map Prod.fst) target fs = false) :
    apply_main cd patches target backup fs = .ok (fs, []) := by
  obtain ⟨p, hp, hv⟩ := h
  unfold apply_main
  rw [if_neg]
  intro hall
  rw [List.all_eq_true] at hall
  exact absurd (hall p hp) (by simp [hv])

/-- C3 instantiated: one archive whose only entry `f.patch` references the
absent base `t/f`; the applier returns the filesystem unchanged and
writes no reverse archive. -/
theorem c3_validate_before_mutation_witness :
    apply_main idCodec [[("f.patch".toList, [1])]] "t".toList true [] = .ok ([], []) :=
  c3_validate_before_mutation idCodec [[("f.patch".toList, [1])]] "t".toList true []
    ⟨[("f.patch".toList, [1])], by decide, by rfl⟩

/-- C7: an unknown `--large-file-strategy` value is rejected by the
builder's `click.Choice` while the command line is parsed, before the
command body (and hence any tree diffing or archive work) runs: for
every input configuration, every oracle and every pair of trees, the
build terminates with the configuration error. -/
theorem c7_unknown_strategy_rejected_at_startup (cd : Codec)
    (xenc : Bytes → Bytes → Bytes) (ro : ReadOracle) (strategyArg : PathStr)
    (splitMB largeMB : Nat) (bp tp : PathStr) (bes tes : List (PathStr × FsNode))
    (h : strategyChoices.contains (pyLower strategyArg) = false) :
    builder_main cd xenc ro strategyArg splitMB largeMB bp tp bes tes =
      .error .configError := by
  unfold builder_main
  rw [if_neg]
  simpa using h

/-- C7 instantiated: the strategy name `bogus` is refused independently of
the trees handed to the build. -/
theorem c7_unknown_strategy_rejected_at_startup_witness :
    builder_main idCodec (fun a b => a ++ b) (fun _ => none) "bogus".toList
        16 32 "B".toList "T".toList [] [("f".toList, FsNode.file [1])] =
      .error .configError :=
  c7_unknown_strategy_rejected_at_startup idCodec (fun a b => a ++ b) (fun _ => none)
    "bogus".toList 16 32 "B".toList "T".toList [] [("f".toList, FsNode.file [1])]
    (by decide)

/-- C6: the `split` strategy pairs the base and target chunk lists
positionally: the emitted entry list has exactly
`min (number of base chunks) (number of target chunks)` elements, entry
`i` is the delta of the `i`-th base chunk against the `i`-th target
chunk under the name `<rel>.part_<i>.patch` (indices contiguous from 0),
and positions beyond the shorter list yield no entry — trailing
unmatched chunks of the longer file are silently dropped. -/
theorem c6_split_pairs_positionally (cfg : BuildCfg) (cd : Codec) (ro : ReadOracle)
    (df tf rel : PathStr) (bc tc : Bytes)
    (hb : ro df = some bc) (ht : ro tf = some tc) :
    (split_and_patch_large_file cfg cd ro df tf rel).1.length =
      min (split_file_into_chunks (getChunkSize cfg) bc).length
        (split_file_into_chunks (getChunkSize cfg) tc).length ∧
    ∀ i : Nat,
      (split_and_patch_large_file cfg cd ro df tf rel).1[i]? =
        (((split_file_into_chunks (getChunkSize cfg) bc).zip
            (split_file_into_chunks (getChunkSize cfg) tc))[i]?).map
          fun p => (chunkEntryName rel i, cd.diff p.1 p.2) := by
  unfold split_and_patch_large_file
  rw [hb, ht]
  constructor
  · simp [List.length_zip]
  · intro i
    simp only [List.getElem?_map, List.getElem?_enum, Option.map_map]
    rfl

/-- C6 instantiated: base content `[1]` and target content `[2, 3]` each
fit in a single 1 MiB chunk, so exactly one entry `f.part_0.patch` is
emitted and position 1 is empty. -/
theorem c6_split_pairs_positionally_witness :
    (split_and_patch_large_file ⟨"split".toList, 1, 0⟩ idCodec
        (fun p => if p = "B/f".toList then some [1]
          else if p = "T/f".toList then some [2, 3] else none)
        "B/f".toList "T/f".toList "f".toList).1.length = 1 ∧
    (split_and_patch_large_file ⟨"split".toList, 1, 0⟩ idCodec
        (fun p => if p = "B/f".toList then some [1]
          else if p = "T/f".toList then some [2, 3] else none)
        "B/f".toList "T/f".toList "f".toList).1[0]? =
      some ("f.part_0.patch".toList, [2, 3]) ∧
    (split_and_patch_large_file ⟨"split".toList, 1, 0⟩ idCodec
        (fun p => if p = "B/f".toList then some [1]
          else if p = "T/f".toList then some [2, 3] else none)
        "B/f".toList "T/f".toList "f".toList).1[1]? = none := by
  have h := c6_split_pairs_positionally ⟨"split".toList, 1, 0⟩ idCodec
    (fun p => if p = "B/f".toList then some [1]
      else if p = "T/f".toList then some [2, 3] else none)
    "B/f".toList "T/f".toList "f".toList [1] [2, 3] rfl rfl
  exact ⟨h.1.trans (by decide), (h.2 0).trans (by decide), (h.2 1).trans (by decide)⟩

/-- C9 counterexample: the claim says external-tool deltas are named
`<relative_path>.patch`; the builder names them `<relative_path>.vcdiff`
(`xdelta_patch_large_file`).  An oversized changed file `big` under the
`xdelta` strategy yields the single entry name `big.vcdiff`, which is not
`big.patch`. -/
theorem c9_counterexample :
    (create_patch_for_file ⟨"xdelta".toList, 16, 0⟩ idCodec (fun a b => b ++ a)
        (fun p => if p = "B/big".toList then some [1]
          else if p = "T/big".toList then some [2] else none)
        "B/big".toList "T/big".toList "big".toList).1.map Prod.fst =
      ["big".toList ++ vcdiffSuffix] ∧
    "big".toList ++ vcdiffSuffix ≠ "big".toList ++ patchSuffix := by
  exact ⟨rfl, by decide⟩

/-- C9 amended: entry naming by kind is `<rel>.patch` for whole-file
deltas, `<rel>.part_<i>.patch` (indices `0 .. min-1`) for chunked
deltas, `<rel>.vcdiff` — not `<rel>.patch` — for external-tool deltas,
the bare `<rel>` for a verbatim copy, and no entry under `skip`. -/
theorem c9_entry_naming (cfg : BuildCfg) (cd : Codec) (xenc : Bytes → Bytes → Bytes)
    (ro : ReadOracle) (df tf rel : PathStr) (bc tc : Bytes)
    (hb : ro df = some bc) (ht : ro tf = some tc) :
    (bc.length ≤ cfg.largeFileSizeMB * 1024 * 1024 →
      (create_patch_for_file cfg cd xenc ro df tf rel).1.map Prod.fst =
        [rel ++ patchSuffix]) ∧
    (bc.length > cfg.largeFileSizeMB * 1024 * 1024 →
      cfg.strategy = "xdelta".toList →
      (create_patch_for_file cfg cd xenc ro df tf rel).1.map Prod.fst =
        [rel ++ vcdiffSuffix]) ∧
    (bc.length > cfg.largeFileSizeMB * 1024 * 1024 →
      cfg.strategy = "copy".toList →
      (create_patch_for_file cfg cd xenc ro df tf rel).1.map Prod.fst = [rel]) ∧
    (bc.length > cfg.largeFileSizeMB * 1024 * 1024 →
      cfg.strategy = "skip".toList →
      (create_patch_for_file cfg cd xenc ro df tf rel).1.map Prod.fst = []) ∧
    (bc.length > cfg.largeFileSizeMB * 1024 * 1024 →
      cfg.strategy = "split".toList → 0 < cfg.splitSizeMB →
      (create_patch_for_file cfg cd xenc ro df tf rel).1.map Prod.fst =
        (List.range
          (min (split_file_into_chunks (getChunkSize cfg) bc).length
            (split_file_into_chunks (getChunkSize cfg) tc).length)).map
          (chunkEntryName rel)) := by
  refine ⟨?_, ?_, ?_, ?_, ?_⟩
  · intro hsize
    unfold create_patch_for_file
    rw [hb]
    dsimp only
    rw [if_neg (by omega), ht]
    rfl
  · intro hsize hstr
    unfold create_patch_for_file handle_large_file
    rw [hb]
    dsimp only
    rw [if_pos hsize, hstr,
      if_neg (by decide), if_neg (by decide),
      if_neg (fun h => absurd h.1 (by decide)), if_pos rfl]
    unfold xdelta_patch_large_file
    rw [hb, ht]
    rfl
  · intro hsize hstr
    unfold create_patch_for_file handle_large_file
    rw [hb]
    dsimp only
    rw [if_pos hsize, hstr, if_pos rfl]
    unfold copy_large_file_to_zip
    rw [ht]
    rfl
  · intro hsize hstr
    unfold create_patch_for_file handle_large_file
    rw [hb]
    dsimp only
    rw [if_pos hsize, hstr, if_neg (by decide), if_pos rfl]
    rfl
  · intro hsize hstr hsplit
    unfold create_patch_for_file handle_large_file
    rw [hb]
    dsimp only
    rw [if_pos hsize, hstr,
      if_neg (by decide), if_neg (by decide), if_pos ⟨rfl, hsplit⟩]
    unfold split_and_patch_large_file
    rw [hb, ht]
    dsimp only
    simp only [List.map_map]
    have hcomp :
        (Prod.fst ∘ fun p : Nat × Bytes × Bytes =>
          (chunkEntryName rel p.1, cd.diff p.2.1 p.2.2)) =
        chunkEntryName rel ∘ Prod.fst := rfl
    rw [hcomp, ← List.map_map, List.enum_map_fst, List.length_zip]

/-- C9 amended, instantiated on the `copy` strategy: the oversized file's
verbatim entry carries the bare relative path. -/
theorem c9_entry_naming_witness :
    (create_patch_for_file ⟨"copy".toList, 16, 0⟩ idCodec (fun a b => b ++ a)
        (fun p => if p = "B/big".toList then some [1]
          else if p = "T/big".toList then some [2] else none)
        "B/big".toList "T/big".toList "big".toList).1.map Prod.fst =
      ["big".toList] :=
  (c9_entry_naming ⟨"copy".toList, 16, 0⟩ idCodec (fun a b => b ++ a)
      (fun p => if p = "B/big".toList then some [1]
        else if p = "T/big".toList then some [2] else none)
      "B/big".toList "T/big".toList "big".toList [1] [2] rfl rfl).2.2.1
    (by decide) rfl

/-- C10 counterexample: the claim describes the base file of a delta entry
as named by stripping the `.patch` suffix.  The code instead deletes
every `'.patch'` occurrence: for the delta entry `a.patch.patch` (the
builder's delta entry name for a changed file whose own relative path is
`a.patch`), the applier patches `t/a` — not `t/a.patch` — leaving
`t/a.patch` untouched. -/
theorem c10_counterexample :
    apply_patch_with_backup idCodec [("a.patch.patch".toList, [7])] "t".toList
        false [("t/a".toList, [1]), ("t/a.patch".toList, [2])] =
      .ok ⟨[("t/a".toList, [7]), ("t/a.patch".toList, [2])], [], 1⟩ ∧
    pyReplace patchSuffix [] "a.patch.patch".toList = "a".toList := by
  exact ⟨rfl, by decide⟩

/-- C10 amended: the applier's dispatch is decided solely by the `.patch`
name suffix.  An entry whose name does not end in `.patch` is extracted
verbatim to `target/<name>`, whatever its kind; an entry whose name does
end in `.patch` is treated as a full delta whose base file is named by
deleting every `'.patch'` occurrence from the entry name (which
coincides with stripping the suffix only when `.patch` occurs nowhere
else), reading it, decoding against it and overwriting it in place. -/
theorem c10_dispatch_on_patch_suffix (cd : Codec) (target : PathStr)
    (backup : Bool) (fs : FS) (n : PathStr) (d : Bytes) :
    (pyEndswith n patchSuffix = false →
      apply_patch_with_backup cd [(n, d)] target backup fs =
        .ok ⟨fsWrite fs (pyJoin target n) d, [], 0⟩) ∧
    (∀ orig : Bytes, pyEndswith n patchSuffix = true →
      fsRead fs (pyJoin target (pyReplace patchSuffix [] n)) = some orig →
      apply_patch_with_backup cd [(n, d)] target backup fs =
        .ok ⟨fsWrite fs (pyJoin target (pyReplace patchSuffix [] n)) (cd.patch orig d),
          if backup then
            [(relpathFromCwd (pyJoin target (pyReplace patchSuffix [] n)) ++ patchSuffix,
              cd.diff (cd.patch orig d) orig)]
          else [],
          d.length⟩) := by
  constructor
  · intro hn
    simp [apply_patch_with_backup, List.foldlM, applyEntry, hn]
  · intro orig hn hread
    simp only [apply_patch_with_backup, List.foldlM, applyEntry, hn, hread,
      if_true, Nat.zero_add]
    cases backup <;> simp [assocSet]

/-- C10 amended, instantiated: a verbatim entry `c.txt` is extracted to
`t/c.txt`, and a delta entry `f.patch` patches `t/f` in place. -/
theorem c10_dispatch_on_patch_suffix_witness :
    apply_patch_with_backup idCodec [("c.txt".toList, [5])] "t".toList false [] =
      .ok ⟨fsWrite [] (pyJoin "t".toList "c.txt".toList) [5], [], 0⟩ ∧
    apply_patch_with_backup idCodec [("f.patch".toList, [9])] "t".toList false
        [("t/f".toList, [1])] =
      .ok ⟨fsWrite [("t/f".toList, [1])]
          (pyJoin "t".toList (pyReplace patchSuffix [] "f.patch".toList))
          (idCodec.patch [1] [9]),
        [], 1⟩ := by
  constructor
  · exact (c10_dispatch_on_patch_suffix idCodec "t".toList false [] "c.txt".toList
      [5]).1 (by decide)
  · exact (c10_dispatch_on_patch_suffix idCodec "t".toList false
      [("t/f".toList, [1])] "f.patch".toList [9]).2 [1] (by decide) rfl

/-- Auxiliary characterization of the changed-file loop of
`create_binary_patch`: folding the per-file step over the changed list
concatenates each file's entries and collects each file's error. -/
theorem buildFoldl_spec (step : PathStr → List (PathStr × Bytes) × Option BuildErr)
    (changed : List PathStr) (acc : List (PathStr × Bytes) × List BuildErr) :
    changed.foldl (fun a df => (a.1 ++ (step df).1, a.2 ++ (step df).2.toList)) acc =
      (acc.1 ++ changed.flatMap fun df => (step df).1,
        acc.2 ++ changed.flatMap fun df => (step df).2.toList) := by
  induction changed generalizing acc with
  | nil => simp
  | cons df rest ih =>
    simp only [List.foldl_cons, List.flatMap_cons, ih, List.append_assoc]

/-- C8 amended: a per-file exception during delta computation does not
fail the build.  The archive-writing phase always completes, returning
the concatenation of every file's successfully written entries followed
by the verbatim new-file entries, with the raised exceptions merely
collected (echoed to stderr in the source); a failed file's entries are
simply absent from the archive. -/
theorem c8_per_file_errors_swallowed (cfg : BuildCfg) (cd : Codec)
    (xenc : Bytes → Bytes → Bytes) (ro : ReadOracle) (bp tp : PathStr)
    (changed newPaths : List PathStr) :
    create_binary_patch_entries cfg cd xenc ro bp tp changed newPaths =
      ((changed.flatMap fun df =>
          (create_patch_for_file cfg cd xenc ro df
            (pyJoin tp (pyRelpathFrom bp df)) (pyRelpathFrom bp df)).1)
        ++ newPaths.map (newFileEntry ro tp),
       changed.flatMap fun df =>
         (create_patch_for_file cfg cd xenc ro df
           (pyJoin tp (pyRelpathFrom bp df)) (pyRelpathFrom bp df)).2.toList) := by
  unfold create_binary_patch_entries
  rw [buildFoldl_spec
    (fun df => create_patch_for_file cfg cd xenc ro df
      (pyJoin tp (pyRelpathFrom bp df)) (pyRelpathFrom bp df))
    changed ([], [])]
  simp

/-- C8 counterexample: the claim says the first per-file error fails the
whole build.  Configuration `--lfs split --split-size 0` (accepted by the
CLI) makes `handle_large_file` raise `ValueError` for every oversized
file; with threshold 0, changed files `B/f1` (nonempty, errors) and
`B/f2` (empty, succeeds), the build nevertheless completes and returns
an archive containing only `f2.patch` — the failed file is silently
omitted and the error merely collected. -/
theorem c8_counterexample :
    create_binary_patch_entries ⟨"split".toList, 0, 0⟩ idCodec (fun a b => b ++ a)
        (fun p => if p = "B/f1".toList then some [1]
          else if p = "B/f2".toList then some []
          else if p = "T/f2".toList then some [] else none)
        "B".toList "T".toList ["B/f1".toList, "B/f2".toList] [] =
      ([("f2.patch".toList, [])], [BuildErr.valueError]) ∧
    (create_patch_for_file ⟨"split".toList, 0, 0⟩ idCodec (fun a b => b ++ a)
        (fun p => if p = "B/f1".toList then some [1]
          else if p = "B/f2".toList then some []
          else if p = "T/f2".toList then some [] else none)
        "B/f1".toList "T/f1".toList "f1".toList).2 = some BuildErr.valueError := by
  exact ⟨rfl, rfl⟩

/-- A string always ends in an appended suffix. -/
theorem pyEndswith_append (s suf : PathStr) : pyEndswith (s ++ suf) suf = true := by
  unfold pyEndswith
  rw [List.isSuffixOf_iff_suffix]
  exact List.suffix_append s suf

/-- Looking up the key just stored by `assocSet` yields the stored value. -/
theorem lookup_assocSet_self (l : List (PathStr × Bytes)) (k : PathStr) (v : Bytes) :
    List.lookup k (assocSet l k v) = some v := by
  induction l with
  | nil => simp [assocSet, List.lookup]
  | cons e rest ih =>
    obtain ⟨k0, v0⟩ := e
    by_cases hk : k0 = k
    · subst hk
      simp [assocSet, List.lookup]
    · have hbf : (k == k0) = false := beq_eq_false_iff_ne.2 fun hh => hk hh.symm
      simp only [assocSet, if_neg hk, List.lookup, hbf]
      exact ih

/-- Path normalization is idempotent. -/
theorem normPath_idem (p : PathStr) : normPath (normPath p) = normPath p := by
  induction p using normPath.induct with
  | case1 rest ih =>
    have h1 : normPath ('.' :: '/' :: rest) = normPath rest := rfl
    rw [h1]
    exact ih
  | case2 p h =>
    have hp : normPath p = p := by
      rw [normPath.eq_def]
      split
      · exact (h _ rfl).elim
      · rfl
    simp only [hp]

/-- Reading back a path that normalizes like the one just written yields
the written contents. -/
theorem fsRead_fsWrite_eqNorm (fs : FS) (p q : PathStr) (v : Bytes)
    (h : normPath q = normPath p) : fsRead (fsWrite fs p v) q = some v := by
  unfold fsRead fsWrite
  rw [h]
  exact lookup_assocSet_self fs (normPath p) v

/-- C4 counterexample: the claim says applying the reverse-patch archive
to the patched tree restores the pre-patch bytes.  With target directory
`t` (the normal CLI situation: the target is a subdirectory of the cwd),
applying the full-delta entry `f.patch` with backup produces a reverse
archive whose entry is named `t/f.patch` — `os.path.relpath` is taken
against the cwd, so the target prefix is baked into the name.  Applying
that reverse archive to the patched tree `t` then looks for base
`t/t/f`, which does not exist: validation fails, the applier performs
zero writes, and `t/f` keeps its patched bytes `[9]` instead of being
restored to `[1, 2]`. -/
theorem c4_counterexample :
    apply_patch_with_backup idCodec [("f.patch".toList, [9])] "t".toList true
        [("t/f".toList, [1, 2])] =
      .ok ⟨[("t/f".toList, [9])], [("t/f.patch".toList, [1, 2])], 1⟩ ∧
    apply_main idCodec [[("t/f.patch".toList, [1, 2])]] "t".toList false
        [("t/f".toList, [9])] =
      .ok ([("t/f".toList, [9])], []) ∧
    fsRead [("t/f".toList, [9])] "t/f".toList = some [9] := by
  exact ⟨rfl, rfl, rfl⟩

/-- C4 amended: for a full-delta entry `<rel>.patch`, the reverse delta is
computed from the post-patch and pre-patch contents before the file is
overwritten (the reverse entry holds `diff new old`), and applying the
resulting reverse-patch archive with the current working directory as
the apply target — the reverse entry names are cwd-relative, target
prefix included — restores the file to its exact pre-patch bytes,
provided the codec satisfies the round-trip law.  (Applying the reverse
archive to the patched tree's own directory instead fails validation
whenever the target directory is not the cwd; see the counterexample.) -/
theorem c4_reverse_patch_restores_via_cwd (cd : Codec)
    (hRT : ∀ a b : Bytes, cd.patch a (cd.diff a b) = b)
    (target rel : PathStr) (old d : Bytes) (fs : FS)
    (hrep1 : pyReplace patchSuffix [] (rel ++ patchSuffix) = rel)
    (hrep2 : pyReplace patchSuffix []
        (relpathFromCwd (pyJoin target rel) ++ patchSuffix) =
      relpathFromCwd (pyJoin target rel))
    (hread : fsRead fs (pyJoin target rel) = some old) :
    ∃ st1 : ApplyState,
      apply_patch_with_backup cd [(rel ++ patchSuffix, d)] target true fs = .ok st1 ∧
      st1.rev = [(relpathFromCwd (pyJoin target rel) ++ patchSuffix,
        cd.diff (cd.patch old d) old)] ∧
      ∃ st2 : ApplyState,
        apply_patch_with_backup cd st1.rev ".".toList false st1.fs = .ok st2 ∧
        fsRead st2.fs (pyJoin target rel) = some old := by
  have hnorm1 : normPath (pyJoin ".".toList (relpathFromCwd (pyJoin target rel))) =
      normPath (pyJoin target rel) := normPath_idem (pyJoin target rel)
  have hend1 := pyEndswith_append rel patchSuffix
  have hend2 := pyEndswith_append (relpathFromCwd (pyJoin target rel)) patchSuffix
  have hrd : fsRead (fsWrite fs (pyJoin target rel) (cd.patch old d))
      (pyJoin ".".toList (relpathFromCwd (pyJoin target rel))) =
      some (cd.patch old d) :=
    fsRead_fsWrite_eqNorm fs (pyJoin target rel)
      (pyJoin ".".toList (relpathFromCwd (pyJoin target rel)))
      (cd.patch old d) hnorm1
  refine ⟨⟨fsWrite fs (pyJoin target rel) (cd.patch old d),
    [(relpathFromCwd (pyJoin target rel) ++ patchSuffix,
      cd.diff (cd.patch old d) old)], d.length⟩, ?_, rfl, ?_⟩
  · simp only [apply_patch_with_backup, List.foldlM, applyEntry, hend1, hrep1, hread,
      if_true, Nat.zero_add]
    simp [assocSet]
  · refine ⟨⟨fsWrite (fsWrite fs (pyJoin target rel) (cd.patch old d))
      (pyJoin ".".toList (relpathFromCwd (pyJoin target rel))) old,
      [], (cd.diff (cd.patch old d) old).length⟩, ?_, ?_⟩
    · simp only [apply_patch_with_backup, List.foldlM, applyEntry, hend2, hrep2, hrd,
      Nat.zero_add]
      rw [hRT (cd.patch old d) old]
      simp
    · exact fsRead_fsWrite_eqNorm _ _ _ old hnorm1.symm

/-- C4 amended, instantiated with a concrete codec, target `t`, file `f`,
pre-patch bytes `[1, 2]` and delta `[9]`. -/
theorem c4_reverse_patch_restores_via_cwd_witness :
    ∃ st1 : ApplyState,
      apply_patch_with_backup idCodec [("f".toList ++ patchSuffix, [9])] "t".toList
          true [("t/f".toList, [1, 2])] = .ok st1 ∧
      st1.rev = [(relpathFromCwd (pyJoin "t".toList "f".toList) ++ patchSuffix,
        idCodec.diff (idCodec.patch [1, 2] [9]) [1, 2])] ∧
      ∃ st2 : ApplyState,
        apply_patch_with_backup idCodec st1.rev ".".toList false st1.fs = .ok st2 ∧
        fsRead st2.fs (pyJoin "t".toList "f".toList) = some [1, 2] :=
  c4_reverse_patch_restores_via_cwd idCodec (fun _ _ => rfl) "t".toList "f".toList
    [1, 2] [9] [("t/f".toList, [1, 2])] (by decide) (by decide) rfl

/-- C5 counterexample: the claim says `new` contains exactly the files
beneath new subtrees after full recursion and never a directory path.
For base `B` empty and target `T` holding one new subdirectory `d` with
one file `f` inside, the differ records the single path `T/d` — the
directory itself — and not the file `T/d/f`. -/
theorem c5_counterexample :
    find_differences "B".toList "T".toList []
        [("d".toList, FsNode.dir [("f".toList, FsNode.file [1])])] =
      ([], ["T/d".toList]) ∧
    "T/d/f".toList ∉
      (find_differences "B".toList "T".toList []
        [("d".toList, FsNode.dir [("f".toList, FsNode.file [1])])]).2 := by
  constructor
  · rw [find_differences.eq_def]
    decide
  · rw [find_differences.eq_def]
    decide

/-- C5 amended: at every directory level commonly present in both trees,
`new` receives exactly the joined names of the entries present only in
the target — whether each is a file or a directory — without recursion
into them (so a new subtree contributes a single directory path, not the
files beneath it), and `changed` receives exactly the names that are
files on both sides with differing contents, so `changed` never holds a
directory path; recursion happens only through directories present in
both trees. -/
theorem c5_find_differences_matches_spec (bp tp : PathStr)
    (bes tes : List (PathStr × FsNode)) :
    find_differences bp tp bes tes =
      (changedSpec bp tp bes tes, newSpec bp tp bes tes) := by
  induction bp, tp, bes, tes using find_differences.induct with
  | _ bp tp bes tes ih =>
    rw [find_differences.eq_def, changedSpec.eq_def, newSpec.eq_def]
    dsimp only
    rw [Prod.mk.injEq]
    constructor
    · congr 1
      rw [List.map_map]
      congr 1
      apply List.map_congr_left
      intro x hx
      simp only [Function.comp_apply]
      split
      · rename_i bsub tsub heq1 heq2
        exact congrArg Prod.fst (ih x bsub tsub heq1)
      · rename_i hno
        rcases hb2 : x.1.2 with bc | bsub <;>
          rcases hl2 : lookupNode tes x.1.1 with _ | (tc | tsub) <;>
          simp only [hb2, hl2]
    · congr 1
      rw [List.map_map]
      congr 1
      apply List.map_congr_left
      intro x hx
      simp only [Function.comp_apply]
      split
      · rename_i bsub tsub heq1 heq2
        exact congrArg Prod.snd (ih x bsub tsub heq1)
      · rename_i hno
        rcases hb2 : x.1.2 with bc | bsub <;>
          rcases hl2 : lookupNode tes x.1.1 with _ | (tc | tsub) <;>
          simp only [hb2, hl2]

end DirPatchkit
